import Mathlib

/-!
Shallow embedding of the SPECTER post-quantum stealth-address protocol
(crates specter-core, specter-crypto, specter-stealth, specter-registry)
and proofs about its specification claims.

Bytes are modelled as `List Nat` (each entry a byte value 0..255; the Rust
types `u8`/`Vec<u8>`/`[u8; N]` enforce the range, and no claim here depends
on byte-range arithmetic).  `u64` values are modelled as `Nat`; the only
u64 arithmetic the embedded code performs is `now + 3600` and
`next_id + 1`, far from overflow in any reachable scenario.

External cryptographic libraries (sha3's SHAKE256/Keccak-256, k256's
secp256k1 scalar check and point encoding, pqcrypto's ML-KEM-768) are not
code of this repository; they are modelled as abstract function parameters
(`CryptoPrims`, `KEM`) carrying only their documented output-length
guarantees, and correctness properties of ML-KEM are taken as explicit
hypotheses where a claim needs them.
-/

set_option maxRecDepth 100000

namespace Specter

/-- Byte strings, as in the Rust `&[u8]` / `Vec<u8>`. -/
abbrev Bytes := List Nat

/-- Little-endian interpretation of a byte list, as in `u64::from_le_bytes`. -/
def fromLE (l : Bytes) : Nat :=
  l.foldr (fun b acc => b + 256 * acc) 0

/-- Little-endian 8-byte encoding of a `u64`, as in `u64::to_le_bytes`. -/
def toLE64 (n : Nat) : Bytes :=
  [n % 256, n / 256 % 256, n / 256 ^ 2 % 256, n / 256 ^ 3 % 256,
   n / 256 ^ 4 % 256, n / 256 ^ 5 % 256, n / 256 ^ 6 % 256, n / 256 ^ 7 % 256]

/-- The `iter().all(|&b| b == 0)` test used by the validators. -/
def allZero (l : Bytes) : Bool :=
  l.all (fun b => b == 0)

/-- A nonempty constant list of a nonzero byte is not all-zero. -/
theorem allZero_replicate_ne (n a : Nat) (hn : 0 < n) (ha : a ≠ 0) :
    allZero (List.replicate n a) = false := by
  cases n with
  | zero => omega
  | succ m =>
    rw [allZero, List.replicate_succ, List.all_cons]
    simp [ha]

/-- Error type: the variants of `SpecterError` (specter-core/src/error.rs)
reachable from the embedded code. -/
inductive SpecterError where
  | EncapsulationError (msg : String)
  | DecapsulationError (msg : String)
  | InvalidKeySize (expected actual : Nat)
  | InvalidCiphertextSize (expected actual : Nat)
  | VerificationFailed (msg : String)
  | InvalidMetaAddress (msg : String)
  | InvalidStealthAddress (msg : String)
  | InvalidAnnouncement (msg : String)
  | DuplicateAnnouncement (id : Nat)
  | ValidationError (msg : String)
  deriving DecidableEq

/-- Test for the `DuplicateAnnouncement` variant (used to state claim C4). -/
def SpecterError.isDuplicateAnnouncement : SpecterError → Bool
  | .DuplicateAnnouncement _ => true
  | _ => false

/-- `KYBER_PUBLIC_KEY_SIZE` (specter-core/src/constants.rs). -/
def KYBER_PUBLIC_KEY_SIZE : Nat := 1184

/-- `KYBER_SECRET_KEY_SIZE`. -/
def KYBER_SECRET_KEY_SIZE : Nat := 2400

/-- `KYBER_CIPHERTEXT_SIZE`. -/
def KYBER_CIPHERTEXT_SIZE : Nat := 1088

/-- `KYBER_SHARED_SECRET_SIZE`. -/
def KYBER_SHARED_SECRET_SIZE : Nat := 32

/-- `VIEW_TAG_SIZE`. -/
def VIEW_TAG_SIZE : Nat := 1

/-- `SHAKE256_VIEW_TAG_OUTPUT_SIZE`. -/
def SHAKE256_VIEW_TAG_OUTPUT_SIZE : Nat := 32

/-- `ETH_ADDRESS_SIZE`. -/
def ETH_ADDRESS_SIZE : Nat := 20

/-- Byte string of an ASCII literal, as in Rust `b"..."`. -/
def asciiBytes (s : String) : Bytes :=
  s.data.map Char.toNat

/-- `DOMAIN_VIEW_TAG = b"SPECTER_VIEW_TAG_V1"`. -/
def DOMAIN_VIEW_TAG : Bytes := asciiBytes "SPECTER_VIEW_TAG_V1"

/-- `DOMAIN_STEALTH_PK = b"SPECTER_STEALTH_PK_V1"`. -/
def DOMAIN_STEALTH_PK : Bytes := asciiBytes "SPECTER_STEALTH_PK_V1"

/-- `DOMAIN_STEALTH_SK = b"SPECTER_STEALTH_SK_V1"`. -/
def DOMAIN_STEALTH_SK : Bytes := asciiBytes "SPECTER_STEALTH_SK_V1"

/-- Modelled from the spec: `DOMAIN_ETH_KEY` is imported by
specter-crypto/src/derive.rs from specter-core but its definition is not
among the provided sources; the spec (section 4.2) names the secp256k1
seed-derivation domain separator `SPECTER_ETH_KEY_V1`.  No claim below
depends on the concrete value, only on both sides of each equation using
the same constant. -/
def DOMAIN_ETH_KEY : Bytes := asciiBytes "SPECTER_ETH_KEY_V1"

/-- Abstract model of the external hash / secp256k1 primitives used by
specter-crypto.  `shake256 domain input n` is the domain-separated XOF of
hash.rs; `keccak256` is plain Keccak-256; `validScalar s` models
`k256::ecdsa::SigningKey::from_slice(s).is_ok()`; `encodedPoint s` models
`SigningKey::from_slice(s) → verifying_key().to_encoded_point(false)`
(65-byte uncompressed point).  Only the documented output lengths are
assumed. -/
structure CryptoPrims where
  shake256 : Bytes → Bytes → Nat → Bytes
  keccak256 : Bytes → Bytes
  validScalar : Bytes → Bool
  encodedPoint : Bytes → Bytes
  shake256_length : ∀ d i n, (shake256 d i n).length = n
  keccak256_length : ∀ i, (keccak256 i).length = 32
  encodedPoint_length : ∀ s, (encodedPoint s).length = 65

/-- `compute_view_tag` (specter-crypto/src/view_tag.rs): first byte of
`shake256(DOMAIN_VIEW_TAG, shared_secret, 32)`. -/
def compute_view_tag (P : CryptoPrims) (shared_secret : Bytes) : Nat :=
  (P.shake256 DOMAIN_VIEW_TAG shared_secret SHAKE256_VIEW_TAG_OUTPUT_SIZE).headD 0

/-- `KyberPublicKey::from_bytes` (specter-core/src/types/keys.rs): size
check only; the key's content is its bytes. -/
def KyberPublicKey.from_bytes (bytes : Bytes) : Except SpecterError Bytes :=
  if bytes.length ≠ KYBER_PUBLIC_KEY_SIZE then
    .error (.InvalidKeySize KYBER_PUBLIC_KEY_SIZE bytes.length)
  else
    .ok bytes

/-- `KyberSecretKey::from_bytes`. -/
def KyberSecretKey.from_bytes (bytes : Bytes) : Except SpecterError Bytes :=
  if bytes.length ≠ KYBER_SECRET_KEY_SIZE then
    .error (.InvalidKeySize KYBER_SECRET_KEY_SIZE bytes.length)
  else
    .ok bytes

/-- `KyberCiphertext::from_bytes` (specter-crypto/src/kyber.rs). -/
def KyberCiphertext.from_bytes (bytes : Bytes) : Except SpecterError Bytes :=
  if bytes.length ≠ KYBER_CIPHERTEXT_SIZE then
    .error (.InvalidCiphertextSize KYBER_CIPHERTEXT_SIZE bytes.length)
  else
    .ok bytes

/-- `MetaAddress` (specter-core/src/types/address.rs).  The optional
off-wire `metadata` field does not participate in validation or in the
binary encoding and is omitted from the embedding. -/
structure MetaAddress where
  version : Nat
  spending_pk : Bytes
  viewing_pk : Bytes
  deriving DecidableEq

/-- `MetaAddress::validate`. -/
def MetaAddress.validate (m : MetaAddress) : Except SpecterError Unit :=
  if m.version == 0 then
    .error (.InvalidMetaAddress "version cannot be 0")
  else if allZero m.spending_pk then
    .error (.InvalidMetaAddress "spending key is all zeros")
  else if allZero m.viewing_pk then
    .error (.InvalidMetaAddress "viewing key is all zeros")
  else
    .ok ()

/-- `MetaAddress::to_bytes`: `version || spending_pk || viewing_pk`. -/
def MetaAddress.to_bytes (m : MetaAddress) : Bytes :=
  m.version :: (m.spending_pk ++ m.viewing_pk)

/-- `MetaAddress::from_bytes`.  Note the length check is only a lower
bound (`bytes.len() < 1 + 1184 + 1184`), exactly as in the source. -/
def MetaAddress.from_bytes (bytes : Bytes) : Except SpecterError MetaAddress :=
  if bytes.length < 1 + 1184 + 1184 then
    .error (.InvalidMetaAddress "too short")
  else
    match KyberPublicKey.from_bytes ((bytes.drop 1).take 1184) with
    | .error e => .error e
    | .ok spending_pk =>
      match KyberPublicKey.from_bytes ((bytes.drop 1185).take 1184) with
      | .error e => .error e
      | .ok viewing_pk =>
        match MetaAddress.validate ⟨bytes.getD 0 0, spending_pk, viewing_pk⟩ with
        | .error e => .error e
        | .ok _ => .ok ⟨bytes.getD 0 0, spending_pk, viewing_pk⟩

/-- `Announcement` (specter-core/src/types/announcement.rs). -/
structure Announcement where
  id : Nat
  ephemeral_key : Bytes
  view_tag : Nat
  timestamp : Nat
  channel_id : Option Bytes
  block_number : Option Nat
  tx_hash : Option (List Char)
  deriving DecidableEq

/-- `Announcement::new`: fresh announcement with `id = 0`, current
timestamp (passed explicitly as `now`), and no optional fields. -/
def Announcement.new (ephemeral_key : Bytes) (view_tag : Nat) (now : Nat) : Announcement :=
  ⟨0, ephemeral_key, view_tag, now, none, none, none⟩

/-- `Announcement::validate`.  `now` models `Self::current_timestamp()`. -/
def Announcement.validate (a : Announcement) (now : Nat) : Except SpecterError Unit :=
  if a.ephemeral_key.length ≠ KYBER_CIPHERTEXT_SIZE then
    .error (.InvalidAnnouncement "ephemeral key size mismatch")
  else if allZero a.ephemeral_key then
    .error (.InvalidAnnouncement "ephemeral key is all zeros")
  else if a.timestamp > now + 3600 then
    .error (.InvalidAnnouncement "timestamp is too far in the future")
  else
    .ok ()

/-- `Announcement::to_bytes`:
`ephemeral_key || view_tag || timestamp_le || has_channel || channel_id?`. -/
def Announcement.to_bytes (a : Announcement) : Bytes :=
  a.ephemeral_key ++ [a.view_tag] ++ toLE64 a.timestamp ++
    (match a.channel_id with
     | some channel => 1 :: channel
     | none => [0])

/-- `Announcement::from_bytes`.  Offsets as in the source: ephemeral key
at 0..1088, view tag at 1088, timestamp at 1089..1097 (LE), has_channel
byte at 1097, channel id at 1098..1130 iff the has_channel byte equals 1.
The length checks are lower bounds only and the id / block_number /
tx_hash fields are not part of the wire format. -/
def Announcement.from_bytes (bytes : Bytes) (now : Nat) : Except SpecterError Announcement :=
  if bytes.length < KYBER_CIPHERTEXT_SIZE + VIEW_TAG_SIZE + 8 + 1 then
    .error (.InvalidAnnouncement "too short")
  else
    match (if bytes.getD 1097 0 == 1 then
             if bytes.length < KYBER_CIPHERTEXT_SIZE + VIEW_TAG_SIZE + 8 + 1 + 32 then
               Except.error (SpecterError.InvalidAnnouncement "missing channel_id bytes")
             else
               Except.ok (some ((bytes.drop 1098).take 32))
           else
             Except.ok none) with
    | .error e => .error e
    | .ok channel_id =>
      match Announcement.validate ⟨0, bytes.take 1088, bytes.getD 1088 0,
          fromLE ((bytes.drop 1089).take 8), channel_id, none, none⟩ now with
      | .error e => .error e
      | .ok _ => .ok ⟨0, bytes.take 1088, bytes.getD 1088 0,
          fromLE ((bytes.drop 1089).take 8), channel_id, none, none⟩

/-- Abstract model of the `pqcrypto_kyber::kyber768` KEM (an external
crate).  `encaps pk r` is the randomized encapsulation at randomness `r`,
`decaps ct sk` is decapsulation.  Only the FIPS 203 output sizes are
assumed; correctness of decapsulation is taken as an explicit hypothesis
(`KEMCorrect`) where a claim needs it. -/
structure KEM where
  encaps : Bytes → Nat → Bytes × Bytes
  decaps : Bytes → Bytes → Bytes
  encaps_ct_length : ∀ pk r, ((encaps pk r).1).length = KYBER_CIPHERTEXT_SIZE
  encaps_ss_length : ∀ pk r, ((encaps pk r).2).length = KYBER_SHARED_SECRET_SIZE
  decaps_ss_length : ∀ ct sk, (decaps ct sk).length = KYBER_SHARED_SECRET_SIZE

/-- FIPS 203 correctness for a particular key pair: decapsulating any
honest encapsulation to `pk` with the matching `sk` recovers the shared
secret. -/
def KEMCorrect (K : KEM) (pk sk : Bytes) : Prop :=
  ∀ r, K.decaps (K.encaps pk r).1 sk = (K.encaps pk r).2

/-- `encapsulate` (specter-crypto/src/kyber.rs): converts the public key
through `kyber768::PublicKey::from_bytes` (a size check), encapsulates,
and re-wraps the ciphertext through `KyberCiphertext::from_bytes`. -/
def encapsulate (K : KEM) (public_key : Bytes) (r : Nat) :
    Except SpecterError (Bytes × Bytes) :=
  if public_key.length ≠ KYBER_PUBLIC_KEY_SIZE then
    .error (.EncapsulationError "Invalid public key")
  else
    let (ct, ss) := K.encaps public_key r
    match KyberCiphertext.from_bytes ct with
    | .error e => .error e
    | .ok ciphertext => .ok (ciphertext, ss)

/-- `decapsulate` (specter-crypto/src/kyber.rs): size checks on the
ciphertext and the secret key, then raw decapsulation. -/
def decapsulate (K : KEM) (ciphertext secret_key : Bytes) :
    Except SpecterError Bytes :=
  if ciphertext.length ≠ KYBER_CIPHERTEXT_SIZE then
    .error (.DecapsulationError "Invalid ciphertext")
  else if secret_key.length ≠ KYBER_SECRET_KEY_SIZE then
    .error (.DecapsulationError "Invalid secret key")
  else
    .ok (K.decaps ciphertext secret_key)

/-- The rejection loop of `derive_eth_key_seed`
(specter-crypto/src/derive.rs lines 147..153): while the candidate is not
a valid secp256k1 scalar, replace it by its Keccak-256 hash.  The source
loop is unbounded (`loop` with no iteration cap); `fuel` is the usual
step-indexing of such a loop: `some seed` means the source loop returns
`Ok(seed)` within `fuel` checks, `none` means that after `fuel` checks it
is still running.  No value of `fuel` makes the embedded loop produce an
error: the source loop has no error path. -/
def eth_seed_loop (P : CryptoPrims) : Nat → Bytes → Option Bytes
  | 0, _ => none
  | fuel + 1, seed =>
      if P.validScalar seed then some seed
      else eth_seed_loop P fuel (P.keccak256 seed)

/-- The candidate chain of the rejection loop: `seedIter P s k` is the
candidate after `k` Keccak-256 re-hashes of the initial candidate `s`. -/
def seedIter (P : CryptoPrims) (s : Bytes) : Nat → Bytes
  | 0 => s
  | k + 1 => P.keccak256 (seedIter P s k)

/-- `derive_eth_key_seed`: initial candidate from
`shake256(DOMAIN_ETH_KEY, shared_secret || spending_pk, 32)`, then the
rejection loop. -/
def derive_eth_key_seed (P : CryptoPrims) (fuel : Nat)
    (shared_secret spending_pk : Bytes) : Option Bytes :=
  eth_seed_loop P fuel (P.shake256 DOMAIN_ETH_KEY (shared_secret ++ spending_pk) 32)

/-- `derive_eth_address_from_seed`: check the seed is a valid secp256k1
scalar, take the uncompressed public key without its 0x04 prefix, hash
with Keccak-256 and keep the last 20 bytes. -/
def derive_eth_address_from_seed (P : CryptoPrims) (seed : Bytes) :
    Except SpecterError Bytes :=
  if P.validScalar seed then
    .ok ((P.keccak256 ((P.encodedPoint seed).drop 1)).drop (32 - ETH_ADDRESS_SIZE))
  else
    .error (.InvalidStealthAddress "invalid secp256k1 key from seed")

/-- `StealthKeys` (specter-crypto/src/derive.rs): 65-byte uncompressed
secp256k1 public key, the stealth private key (the 32-byte seed on the
secp256k1 path), and the derived Ethereum address. -/
structure StealthKeys where
  public_key : Bytes
  private_key : Bytes
  address : Bytes
  deriving DecidableEq

/-- `StealthPrivateKey::to_eth_private_key`: first 32 bytes. -/
def to_eth_private_key (private_key : Bytes) : Bytes :=
  private_key.take 32

/-- `derive_stealth_keys` (secp256k1 path; `spending_sk` is unused by the
source, kept for signature fidelity).  `none` means the seed-derivation
loop is still running after `fuel` checks. -/
def derive_stealth_keys (P : CryptoPrims) (fuel : Nat)
    (spending_pk _spending_sk shared_secret : Bytes) :
    Option (Except SpecterError StealthKeys) :=
  (derive_eth_key_seed P fuel shared_secret spending_pk).map (fun seed =>
    match derive_eth_address_from_seed P seed with
    | .error e => .error e
    | .ok address =>
      if P.validScalar seed then
        .ok ⟨P.encodedPoint seed, seed, address⟩
      else
        .error (.InvalidStealthAddress "invalid secp256k1 key"))

/-- `derive_stealth_address`: seed derivation followed by address
derivation only. -/
def derive_stealth_address (P : CryptoPrims) (fuel : Nat)
    (spending_pk shared_secret : Bytes) :
    Option (Except SpecterError Bytes) :=
  (derive_eth_key_seed P fuel shared_secret spending_pk).map
    (fun seed => derive_eth_address_from_seed P seed)

/-- `PaymentMetadata` (specter-stealth/src/payment.rs), default all-none. -/
structure PaymentMetadata where
  recipient_ens : Option String
  amount : Option String
  token : Option String
  memo : Option String
  deriving DecidableEq

/-- `PaymentMetadata::default()`. -/
def PaymentMetadata.default : PaymentMetadata :=
  ⟨none, none, none, none⟩

/-- `StealthPayment` (specter-stealth/src/payment.rs). -/
structure StealthPayment where
  stealth_address : Bytes
  announcement : Announcement
  metadata : PaymentMetadata
  deriving DecidableEq

/-- `create_stealth_payment` (specter-stealth/src/payment.rs): validate
the meta-address, encapsulate to the viewing key, compute the view tag,
derive the stealth address from the spending key, and build the
announcement.  `r` is the encapsulation randomness and `now` the clock
read by `Announcement::new`; `none` means the seed-derivation loop is
still running after `fuel` checks. -/
def create_stealth_payment (P : CryptoPrims) (K : KEM) (fuel : Nat)
    (meta_address : MetaAddress) (r now : Nat) :
    Option (Except SpecterError StealthPayment) :=
  match meta_address.validate with
  | .error e => some (.error e)
  | .ok _ =>
    match encapsulate K meta_address.viewing_pk r with
    | .error e => some (.error e)
    | .ok (ciphertext, shared_secret) =>
      let view_tag := compute_view_tag P shared_secret
      match derive_stealth_address P fuel meta_address.spending_pk shared_secret with
      | none => none
      | some (.error e) => some (.error e)
      | some (.ok stealth_address) =>
        let announcement := Announcement.new ciphertext view_tag now
        some (.ok ⟨stealth_address, announcement, PaymentMetadata.default⟩)

/-- Zeroization event trace of `create_stealth_payment` for claim C9: the
list of secret buffers whose storage the function overwrites before
returning.  The source body contains no `zeroize` call and none of the
locals (`ciphertext: KyberCiphertext`, `shared_secret: [u8; 32]`,
`view_tag: u8`, `stealth_address: EthAddress`, `announcement`) has a
zeroizing destructor, so every path through the function emits no event;
the trace is built branch by branch to mirror the source's control flow. -/
def create_stealth_payment_zeroize_trace (P : CryptoPrims) (K : KEM) (fuel : Nat)
    (meta_address : MetaAddress) (r _now : Nat) : List String :=
  match meta_address.validate with
  | .error _ => []
  | .ok _ =>
    match encapsulate K meta_address.viewing_pk r with
    | .error _ => []
    | .ok (_, shared_secret) =>
      match derive_stealth_address P fuel meta_address.spending_pk shared_secret with
      | none => []
      | some (.error _) => []
      | some (.ok _) => []

/-- `ScanResult` (specter-stealth/src/discovery.rs). -/
inductive ScanResult where
  | NotForUs : ScanResult
  | Discovered (keys : StealthKeys) : ScanResult
  | DecapsulationFailed (e : SpecterError) : ScanResult
  deriving DecidableEq

/-- `scan_announcement` (specter-stealth/src/discovery.rs): validate the
announcement, rebuild the ciphertext and viewing secret key, decapsulate,
compare view tags, and derive the stealth keys on a match.  `now` is the
clock read by `Announcement::validate`; `none` means the seed-derivation
loop inside `derive_stealth_keys` is still running after `fuel` checks. -/
def scan_announcement (P : CryptoPrims) (K : KEM) (fuel : Nat)
    (announcement : Announcement) (viewing_sk spending_pk spending_sk : Bytes)
    (now : Nat) : Option ScanResult :=
  match announcement.validate now with
  | .error e => some (.DecapsulationFailed e)
  | .ok _ =>
    match KyberCiphertext.from_bytes announcement.ephemeral_key with
    | .error e => some (.DecapsulationFailed e)
    | .ok ciphertext =>
      match KyberSecretKey.from_bytes viewing_sk with
      | .error e => some (.DecapsulationFailed e)
      | .ok viewing_secret =>
        match decapsulate K ciphertext viewing_secret with
        | .error e => some (.DecapsulationFailed e)
        | .ok shared_secret =>
          let expected_view_tag := compute_view_tag P shared_secret
          if expected_view_tag ≠ announcement.view_tag then
            some .NotForUs
          else
            match derive_stealth_keys P fuel spending_pk spending_sk shared_secret with
            | none => none
            | some (.ok keys) => some (.Discovered keys)
            | some (.error e) => some (.DecapsulationFailed e)

/-- `AnnouncementStats` (specter-core/src/types/announcement.rs). -/
structure AnnouncementStats where
  total_count : Nat
  view_tag_distribution : List Nat
  earliest_timestamp : Option Nat
  latest_timestamp : Option Nat
  yellow_channel_count : Nat
  deriving DecidableEq

/-- `AnnouncementStats::new()` / `default()`: 256 zeroed buckets. -/
def AnnouncementStats.new : AnnouncementStats :=
  ⟨0, List.replicate 256 0, none, none, 0⟩

/-- `AnnouncementStats::add`. -/
def AnnouncementStats.add (s : AnnouncementStats) (a : Announcement) : AnnouncementStats :=
  { total_count := s.total_count + 1
    view_tag_distribution :=
      s.view_tag_distribution.set a.view_tag
        (s.view_tag_distribution.getD a.view_tag 0 + 1)
    earliest_timestamp :=
      match s.earliest_timestamp with
      | some t => if a.timestamp < t then some a.timestamp else some t
      | none => some a.timestamp
    latest_timestamp :=
      match s.latest_timestamp with
      | some t => if a.timestamp > t then some a.timestamp else some t
      | none => some a.timestamp
    yellow_channel_count :=
      if a.channel_id.isSome then s.yellow_channel_count + 1
      else s.yellow_channel_count }

/-- `MemoryRegistry` (specter-registry/src/memory.rs).  The `DashMap`
primary store is modelled as an association list of `(id, announcement)`
entries in insertion order (ids are unique, so first-match lookup agrees
with map lookup and the entry count is the map's length); the u8-keyed
view-tag `DashMap` is a total function to insertion-ordered id buckets
(`or_insert_with(Vec::new)` gives absent tags the empty bucket); the
tx-hash `DashMap` is a partial function from normalized hashes to ids. -/
structure MemoryRegistry where
  announcements : List (Nat × Announcement)
  view_tag_index : Nat → List Nat
  tx_hash_index : List Char → Option Nat
  next_id : Nat
  stats : AnnouncementStats

/-- `MemoryRegistry::new()`: empty maps, `next_id = 1`. -/
def MemoryRegistry.new : MemoryRegistry :=
  ⟨[], fun _ => [], fun _ => none, 1, AnnouncementStats.new⟩

/-- Rust `str::trim`: strip whitespace from both ends.  Rust strings are
modelled as `List Char` so that trimming and lowercasing are kernel
computable. -/
def rustTrim (s : List Char) : List Char :=
  ((s.dropWhile (·.isWhitespace)).reverse.dropWhile (·.isWhitespace)).reverse

/-- `MemoryRegistry::normalize_tx_hash`: trim then lowercase. -/
def normalize_tx_hash (hash : List Char) : List Char :=
  (rustTrim hash).map Char.toLower

/-- `MemoryRegistry::publish`: validate, reject empty or duplicate
normalized tx hashes, take an id from `next_id.fetch_add(1)`, then index
by view tag, index by tx hash, update stats, and store.  Returns the
result of the call together with the registry state after it. -/
def MemoryRegistry.publish (st : MemoryRegistry) (announcement : Announcement)
    (now : Nat) : Except SpecterError Nat × MemoryRegistry :=
  match announcement.validate now with
  | .error e => (.error e, st)
  | .ok _ =>
    match (match announcement.tx_hash with
           | none => none
           | some hash =>
             if (normalize_tx_hash hash).isEmpty then
               some (SpecterError.InvalidAnnouncement "tx_hash cannot be empty")
             else if (st.tx_hash_index (normalize_tx_hash hash)).isSome then
               some (SpecterError.InvalidAnnouncement
                 "announcement with this transaction hash already exists")
             else
               none) with
    | some e => (.error e, st)
    | none =>
      (.ok st.next_id,
       { announcements :=
           st.announcements ++ [(st.next_id, { announcement with id := st.next_id })]
         view_tag_index := fun tag =>
           if tag = announcement.view_tag then st.view_tag_index tag ++ [st.next_id]
           else st.view_tag_index tag
         tx_hash_index := fun h =>
           match announcement.tx_hash with
           | some hash =>
             if h = normalize_tx_hash hash then some st.next_id else st.tx_hash_index h
           | none => st.tx_hash_index h
         next_id := st.next_id + 1
         stats := st.stats.add { announcement with id := st.next_id } })

/-- `MemoryRegistry::get_by_view_tag`: bucket lookup, then resolve each id
against the primary store, skipping missing ids. -/
def MemoryRegistry.get_by_view_tag (st : MemoryRegistry) (view_tag : Nat) :
    List Announcement :=
  (st.view_tag_index view_tag).filterMap (fun id => st.announcements.lookup id)

/-- `MemoryRegistry::count`: size of the primary store. -/
def MemoryRegistry.count (st : MemoryRegistry) : Nat :=
  st.announcements.length

/-- A registry operation; of the operations in the trait, only `publish`
changes the state. -/
inductive RegOp where
  | publish (announcement : Announcement) (now : Nat)

/-- State after one operation. -/
def regStep (st : MemoryRegistry) : RegOp → MemoryRegistry
  | .publish a now => (st.publish a now).2

/-- State after a sequence of operations starting from `st`. -/
def regRun (st : MemoryRegistry) : List RegOp → MemoryRegistry
  | [] => st
  | op :: ops => regRun (regStep st op) ops

/-- Number of operations in a sequence whose `publish` call succeeds. -/
def successCount (st : MemoryRegistry) : List RegOp → Nat
  | [] => 0
  | .publish a now :: ops =>
    match st.publish a now with
    | (.ok _, st') => successCount st' ops + 1
    | (.error _, st') => successCount st' ops

/-- The §3 registry agreement invariant: for every tag, the bucket holds
exactly the ids of stored announcements carrying that tag. -/
def indexAgrees (st : MemoryRegistry) : Prop :=
  ∀ tag id, id ∈ st.view_tag_index tag ↔
    ∃ a, (id, a) ∈ st.announcements ∧ a.view_tag = tag

/-- Internal well-formedness of a registry state, used to carry the
agreement invariant through `publish`: stored ids are unique, every
stored id and every bucket id is below `next_id`, and the index agrees
with the store. -/
def RegInv (st : MemoryRegistry) : Prop :=
  (st.announcements.map Prod.fst).Nodup ∧
  (∀ p ∈ st.announcements, p.1 < st.next_id) ∧
  indexAgrees st

/-! Concrete instantiations of the abstract primitives, used to witness
the theorems below on explicit inputs.  They satisfy exactly the length
guarantees assumed of the real libraries. -/

/-- A concrete `CryptoPrims` instance for witnesses: constant hashes of
the documented lengths, every seed a valid scalar. -/
def demoPrims : CryptoPrims where
  shake256 := fun _ _ n => List.replicate n 1
  keccak256 := fun _ => List.replicate 32 1
  validScalar := fun _ => true
  encodedPoint := fun _ => List.replicate 65 2
  shake256_length := fun _ _ n => List.length_replicate n 1
  keccak256_length := fun _ => List.length_replicate 32 1
  encodedPoint_length := fun _ => List.length_replicate 65 2

/-- A concrete `KEM` instance for witnesses: constant ciphertext and
shared secret, so decapsulation is trivially correct for every key pair. -/
def demoKEM : KEM where
  encaps := fun _ _ => (List.replicate 1088 1, List.replicate 32 9)
  decaps := fun _ _ => List.replicate 32 9
  encaps_ct_length := fun _ _ => List.length_replicate 1088 1
  encaps_ss_length := fun _ _ => List.length_replicate 32 9
  decaps_ss_length := fun _ _ => List.length_replicate 32 9

/-- A `CryptoPrims` instance on which no candidate is ever a valid
scalar, exercising the rejection loop of `derive_eth_key_seed` without
bound (the scalar check is an external-library predicate, so the loop's
cap claim must hold for every predicate). -/
def rejectAllPrims : CryptoPrims where
  shake256 := fun _ _ n => List.replicate n 0
  keccak256 := fun _ => List.replicate 32 0
  validScalar := fun _ => false
  encodedPoint := fun _ => List.replicate 65 0
  shake256_length := fun _ _ n => List.length_replicate n 0
  keccak256_length := fun _ => List.length_replicate 32 0
  encodedPoint_length := fun _ => List.length_replicate 65 0

/-- A concrete valid announcement carrying a `block_number`, used to
exhibit that the field is dropped by the binary round-trip. -/
def demoAnnWithBlock : Announcement :=
  ⟨0, List.replicate 1088 1, 5, 0, none, some 1, none⟩

/-- A concrete valid meta-address for the C5 scenario. -/
def demoMeta : MetaAddress := ⟨1, List.replicate 1184 1, List.replicate 1184 2⟩

/-- A concrete valid announcement for the C5 scenario. -/
def demoAnn : Announcement := ⟨0, List.replicate 1088 1, 5, 0, none, none, none⟩

/-- First announcement of the duplicate-tx-hash scenario, with
`tx_hash = "0xabc"`. -/
def demoAnnTx1 : Announcement :=
  ⟨0, List.replicate 1088 1, 5, 0, none, none, some "0xabc".data⟩

/-- Second announcement of the scenario, with `tx_hash = "0xABC"` (the
same hash after normalization). -/
def demoAnnTx2 : Announcement :=
  ⟨0, List.replicate 1088 2, 7, 0, none, none, some "0xABC".data⟩

/-! ## Claim C2: KEM round-trip through the wrappers -/

/-- C2.  For every key pair `(pk, sk)` of the documented sizes for which
the underlying ML-KEM-768 is correct (FIPS 203), and every
`(ct, ss) := encapsulate(pk)`, `decapsulate(ct, sk)` returns exactly
`ss`, the ciphertext is 1088 bytes, and the shared secret is 32 bytes. -/
theorem claim2_kem_wrapper_roundtrip (K : KEM) (pk sk : Bytes)
    (hpk : pk.length = KYBER_PUBLIC_KEY_SIZE)
    (hsk : sk.length = KYBER_SECRET_KEY_SIZE)
    (hcorrect : KEMCorrect K pk sk)
    (r : Nat) (ct ss : Bytes)
    (henc : encapsulate K pk r = .ok (ct, ss)) :
    decapsulate K ct sk = .ok ss ∧ ct.length = 1088 ∧ ss.length = 32 := by
  have hct := K.encaps_ct_length pk r
  have hss := K.encaps_ss_length pk r
  have hdec := hcorrect r
  rcases hE : K.encaps pk r with ⟨ct0, ss0⟩
  rw [hE] at hct hss hdec
  simp only at hct hss hdec
  simp only [encapsulate, hpk, KyberCiphertext.from_bytes, hE, hct,
    KYBER_CIPHERTEXT_SIZE] at henc
  simp only [ne_eq, not_true_eq_false, if_false, reduceIte] at henc
  obtain ⟨h1, h2⟩ := Prod.mk.inj (Except.ok.inj henc)
  subst h1; subst h2
  refine ⟨?_, hct, hss⟩
  simp [decapsulate, hct, hsk, KYBER_CIPHERTEXT_SIZE, KYBER_SECRET_KEY_SIZE, hdec]

set_option maxRecDepth 40000 in
/-- Witness for C2 at the demo KEM and an all-ones public key. -/
theorem claim2_witness :
    List.length (List.replicate 1184 1) = KYBER_PUBLIC_KEY_SIZE ∧
    decapsulate demoKEM (List.replicate 1088 1) (List.replicate 2400 3) =
      .ok (List.replicate 32 9) ∧
    List.length (List.replicate 1088 1 : Bytes) = 1088 ∧
    List.length (List.replicate 32 9 : Bytes) = 32 := by
  have h := claim2_kem_wrapper_roundtrip demoKEM
    (List.replicate 1184 1) (List.replicate 2400 3)
    (by simp [KYBER_PUBLIC_KEY_SIZE]) (by simp [KYBER_SECRET_KEY_SIZE])
    (fun _ => rfl) 0 (List.replicate 1088 1) (List.replicate 32 9) (by rfl)
  exact ⟨by simp [KYBER_PUBLIC_KEY_SIZE], h⟩

/-! ## Claim C3: published address matches the derivable signing key -/

/-- The rejection loop preserves the 32-byte candidate width. -/
theorem eth_seed_loop_length (P : CryptoPrims) (fuel : Nat) :
    ∀ s t : Bytes, s.length = 32 → eth_seed_loop P fuel s = some t → t.length = 32 := by
  induction fuel with
  | zero => intro s t _ h; simp [eth_seed_loop] at h
  | succ n ih =>
    intro s t hs h
    unfold eth_seed_loop at h
    by_cases hv : P.validScalar s
    · simp [hv] at h; exact h ▸ hs
    · simp [hv] at h; exact ih _ _ (P.keccak256_length s) h

/-- C3.  For every 1184-byte `spending_pk` and 32-byte shared secret, if
`derive_stealth_keys` succeeds then `derive_stealth_address` returns
exactly the keys' address, and deriving the Ethereum address from the
returned private key (its 32-byte `to_eth_private_key` form) gives the
same address: the published address matches the derivable signing key. -/
theorem claim3_address_matches_private_key (P : CryptoPrims) (fuel : Nat)
    (spending_pk spending_sk shared_secret : Bytes) (keys : StealthKeys)
    (_hpk : spending_pk.length = KYBER_PUBLIC_KEY_SIZE)
    (_hss : shared_secret.length = KYBER_SHARED_SECRET_SIZE)
    (hkeys : derive_stealth_keys P fuel spending_pk spending_sk shared_secret =
      some (.ok keys)) :
    derive_stealth_address P fuel spending_pk shared_secret = some (.ok keys.address) ∧
    derive_eth_address_from_seed P (to_eth_private_key keys.private_key) =
      .ok keys.address := by
  unfold derive_stealth_keys at hkeys
  rw [Option.map_eq_some'] at hkeys
  obtain ⟨seed, hseed, hf⟩ := hkeys
  have hlen : seed.length = 32 :=
    eth_seed_loop_length P fuel _ seed
      (P.shake256_length DOMAIN_ETH_KEY (shared_secret ++ spending_pk) 32) hseed
  rcases hA : derive_eth_address_from_seed P seed with e | address
  · rw [hA] at hf; simp at hf
  · rw [hA] at hf
    by_cases hv : P.validScalar seed
    · simp only [hv, if_true, reduceIte] at hf
      have hkeyseq := Except.ok.inj hf
      subst hkeyseq
      refine ⟨?_, ?_⟩
      · unfold derive_stealth_address
        rw [hseed, Option.map_some', hA]
      · show derive_eth_address_from_seed P (to_eth_private_key seed) = _
        have htake : to_eth_private_key seed = seed := by
          unfold to_eth_private_key
          rw [← hlen, List.take_length]
        rw [htake, hA]
    · simp [hv] at hf

set_option maxRecDepth 40000 in
/-- Witness for C3 at the demo primitives. -/
theorem claim3_witness :
    List.length (List.replicate 1184 1) = KYBER_PUBLIC_KEY_SIZE ∧
    derive_stealth_address demoPrims 1 (List.replicate 1184 1) (List.replicate 32 7) =
      some (.ok (List.replicate 20 1)) ∧
    derive_eth_address_from_seed demoPrims
      (to_eth_private_key (List.replicate 32 1)) = .ok (List.replicate 20 1) := by
  have h := claim3_address_matches_private_key demoPrims 1
    (List.replicate 1184 1) (List.replicate 2400 4) (List.replicate 32 7)
    ⟨List.replicate 65 2, List.replicate 32 1, List.replicate 20 1⟩
    (by simp [KYBER_PUBLIC_KEY_SIZE]) (by simp [KYBER_SHARED_SECRET_SIZE]) (by rfl)
  exact ⟨by simp [KYBER_PUBLIC_KEY_SIZE], h⟩

/-! ## Claim C7: the scalar rejection loop has no iteration cap -/

/-- Re-hashing once then iterating `k` times equals iterating `k + 1`
times. -/
theorem seedIter_shift (P : CryptoPrims) (s : Bytes) (k : Nat) :
    seedIter P (P.keccak256 s) k = seedIter P s (k + 1) := by
  induction k with
  | zero => rfl
  | succ n ih => unfold seedIter; rw [ih]

/-- The loop is still running after `fuel` checks iff none of the first
`fuel` candidates is a valid scalar. -/
theorem eth_seed_loop_none_iff (P : CryptoPrims) (fuel : Nat) :
    ∀ s : Bytes, eth_seed_loop P fuel s = none ↔
      ∀ k < fuel, P.validScalar (seedIter P s k) = false := by
  induction fuel with
  | zero => intro s; simp [eth_seed_loop]
  | succ n ih =>
    intro s
    unfold eth_seed_loop
    by_cases hv : P.validScalar s
    · simp only [hv, if_true, reduceIte]
      constructor
      · intro h; exact absurd h (by simp)
      · intro h
        have := h 0 (Nat.succ_pos n)
        simp [seedIter, hv] at this
    · simp only [hv, if_false, Bool.false_eq_true, reduceIte]
      rw [ih (P.keccak256 s)]
      constructor
      · intro h k hk
        match k with
        | 0 => simpa [seedIter] using hv
        | k + 1 =>
          rw [← seedIter_shift]
          exact h k (by omega)
      · intro h k hk
        rw [seedIter_shift]
        exact h (k + 1) (by omega)

/-- When the loop does return, it returns a valid scalar. -/
theorem eth_seed_loop_some_valid (P : CryptoPrims) (fuel : Nat) :
    ∀ s t : Bytes, eth_seed_loop P fuel s = some t → P.validScalar t = true := by
  induction fuel with
  | zero => intro s t h; simp [eth_seed_loop] at h
  | succ n ih =>
    intro s t h
    unfold eth_seed_loop at h
    by_cases hv : P.validScalar s
    · simp [hv] at h; exact h ▸ hv
    · simp [hv] at h; exact ih _ _ h

/-- C7 (amended).  The secp256k1 seed derivation's rejection loop is
unbounded: for every step budget `fuel`, the loop has returned nothing
after `fuel` candidate checks exactly when none of the first `fuel`
candidates (the Keccak-256 iterates of the SHAKE256 candidate) is a valid
scalar — in particular no cap at 8 iterations exists — and whenever it
returns a seed, that seed is the first valid candidate; the embedded
loop's type has no error outcome, so it never returns
`VerificationFailed`. -/
theorem claim7_seed_loop_uncapped (P : CryptoPrims) (fuel : Nat)
    (shared_secret spending_pk : Bytes) :
    (derive_eth_key_seed P fuel shared_secret spending_pk = none ↔
      ∀ k < fuel, P.validScalar
        (seedIter P (P.shake256 DOMAIN_ETH_KEY (shared_secret ++ spending_pk) 32) k) =
          false) ∧
    ∀ seed, derive_eth_key_seed P fuel shared_secret spending_pk = some seed →
      P.validScalar seed = true := by
  constructor
  · exact eth_seed_loop_none_iff P fuel _
  · intro seed h
    exact eth_seed_loop_some_valid P fuel _ seed h

set_option maxRecDepth 40000 in
/-- Counterexample for C7 as stated: with a scalar-validity predicate
that rejects every candidate (the predicate comes from the external k256
crate, so the claimed 8-iteration cap would have to hold for any
predicate), the loop of `derive_eth_key_seed` is still running after 8
and even after 999 re-hash iterations, and has returned no
`VerificationFailed` error — the source loop has no cap and no error
path. -/
theorem claim7_counterexample :
    derive_eth_key_seed rejectAllPrims 9 [] [] = none ∧
    derive_eth_key_seed rejectAllPrims 1000 [] [] = none := by
  exact ⟨rfl, rfl⟩

/-- Witness for C7 at the demo primitives: with every candidate valid,
one check suffices and the returned seed is valid. -/
theorem claim7_witness :
    derive_eth_key_seed demoPrims 1 [] [] = some (List.replicate 32 1) ∧
    demoPrims.validScalar (List.replicate 32 1) = true :=
  ⟨rfl, (claim7_seed_loop_uncapped demoPrims 1 [] []).2 (List.replicate 32 1) rfl⟩

/-! ## Claim C9: zeroization of the shared secret in the payment builder -/

/-- C9 (divergence).  On every path through `create_stealth_payment` —
success and every error path alike — the function performs no
zeroization: the trace of overwritten secret buffers is empty.  The spec
requires the 32-byte shared secret to be zeroed before the call returns;
the source contains no `zeroize` call and the `[u8; 32]` shared secret
has no zeroizing destructor. -/
theorem claim9_no_zeroize_of_shared_secret (P : CryptoPrims) (K : KEM)
    (fuel : Nat) (meta : MetaAddress) (r now : Nat) :
    create_stealth_payment_zeroize_trace P K fuel meta r now = [] := by
  unfold create_stealth_payment_zeroize_trace
  repeat' split
  all_goals rfl

/-! ## Parsing lemmas for `Announcement.from_bytes` on structured buffers -/

/-- `toLE64` always yields 8 bytes. -/
theorem toLE64_length (n : Nat) : (toLE64 n).length = 8 := rfl

/-- Decoding re-reads an encoded `u64` below `2 ^ 64`. -/
theorem fromLE_toLE64 (n : Nat) (h : n < 2 ^ 64) : fromLE (toLE64 n) = n := by
  simp [fromLE, toLE64]
  omega

/-- `Announcement.validate` reads only the ephemeral key and the
timestamp. -/
theorem validate_only_key_and_timestamp (i i' vt vt' ts : Nat) (ek : Bytes)
    (ch ch' : Option Bytes) (bn bn' : Option Nat) (tx tx' : Option (List Char)) (now : Nat) :
    Announcement.validate ⟨i, ek, vt, ts, ch, bn, tx⟩ now =
      Announcement.validate ⟨i', ek, vt', ts, ch', bn', tx'⟩ now := rfl

/-- Parsing a buffer `ek ++ [tag] ++ ts8 ++ hc :: rest` whose
has_channel byte `hc` is not 1: the channel branch is skipped and the
fields decode positionally. -/
theorem from_bytes_structured_nochannel (ek ts8 rest : Bytes) (tag hc now : Nat)
    (hek : ek.length = 1088) (hts8 : ts8.length = 8) (hhc : hc ≠ 1) :
    Announcement.from_bytes (ek ++ [tag] ++ ts8 ++ hc :: rest) now =
      (match Announcement.validate ⟨0, ek, tag, fromLE ts8, none, none, none⟩ now with
       | .error e => .error e
       | .ok _ => .ok ⟨0, ek, tag, fromLE ts8, none, none, none⟩) := by
  have hlen : (ek ++ [tag] ++ ts8 ++ hc :: rest).length = 1098 + rest.length := by
    simp [hek, hts8]; omega
  have htake : (ek ++ [tag] ++ ts8 ++ hc :: rest).take 1088 = ek := by
    rw [show ek ++ [tag] ++ ts8 ++ hc :: rest = ek ++ ([tag] ++ ts8 ++ hc :: rest) by
      simp]
    exact List.take_left' hek
  have htag : (ek ++ [tag] ++ ts8 ++ hc :: rest).getD 1088 0 = tag := by
    rw [show ek ++ [tag] ++ ts8 ++ hc :: rest = ek ++ ([tag] ++ (ts8 ++ hc :: rest)) by
      simp]
    rw [List.getD_append_right _ _ _ _ (by omega), hek]
    simp
  have hdrop : (ek ++ [tag] ++ ts8 ++ hc :: rest).drop 1089 = ts8 ++ hc :: rest := by
    rw [show ek ++ [tag] ++ ts8 ++ hc :: rest = (ek ++ [tag]) ++ (ts8 ++ hc :: rest) by
      simp]
    exact List.drop_left' (by simp [hek])
  have hts : ((ek ++ [tag] ++ ts8 ++ hc :: rest).drop 1089).take 8 = ts8 := by
    rw [hdrop]; exact List.take_left' hts8
  have hhcb : (ek ++ [tag] ++ ts8 ++ hc :: rest).getD 1097 0 = hc := by
    rw [show ek ++ [tag] ++ ts8 ++ hc :: rest = (ek ++ [tag] ++ ts8) ++ hc :: rest by
      simp]
    rw [List.getD_append_right _ _ _ _ (by simp [hek, hts8])]
    simp [hek, hts8]
  unfold Announcement.from_bytes
  rw [if_neg (by rw [hlen]; simp [KYBER_CIPHERTEXT_SIZE, VIEW_TAG_SIZE])]
  rw [htake, htag, hts, hhcb]
  simp only [beq_iff_eq, hhc, if_false, reduceIte]

/-- Parsing a buffer `ek ++ [tag] ++ ts8 ++ 1 :: (ch ++ rest)` whose
has_channel byte is 1 and channel field is the 32-byte `ch`. -/
theorem from_bytes_structured_channel (ek ts8 ch rest : Bytes) (tag now : Nat)
    (hek : ek.length = 1088) (hts8 : ts8.length = 8) (hch : ch.length = 32) :
    Announcement.from_bytes (ek ++ [tag] ++ ts8 ++ 1 :: (ch ++ rest)) now =
      (match Announcement.validate ⟨0, ek, tag, fromLE ts8, some ch, none, none⟩ now with
       | .error e => .error e
       | .ok _ => .ok ⟨0, ek, tag, fromLE ts8, some ch, none, none⟩) := by
  have hlen : (ek ++ [tag] ++ ts8 ++ 1 :: (ch ++ rest)).length = 1130 + rest.length := by
    simp [hek, hts8, hch]; omega
  have htake : (ek ++ [tag] ++ ts8 ++ 1 :: (ch ++ rest)).take 1088 = ek := by
    rw [show ek ++ [tag] ++ ts8 ++ 1 :: (ch ++ rest) =
      ek ++ ([tag] ++ ts8 ++ 1 :: (ch ++ rest)) by simp]
    exact List.take_left' hek
  have htag : (ek ++ [tag] ++ ts8 ++ 1 :: (ch ++ rest)).getD 1088 0 = tag := by
    rw [show ek ++ [tag] ++ ts8 ++ 1 :: (ch ++ rest) =
      ek ++ ([tag] ++ (ts8 ++ 1 :: (ch ++ rest))) by simp]
    rw [List.getD_append_right _ _ _ _ (by omega), hek]
    simp
  have hdrop : (ek ++ [tag] ++ ts8 ++ 1 :: (ch ++ rest)).drop 1089 =
      ts8 ++ 1 :: (ch ++ rest) := by
    rw [show ek ++ [tag] ++ ts8 ++ 1 :: (ch ++ rest) =
      (ek ++ [tag]) ++ (ts8 ++ 1 :: (ch ++ rest)) by simp]
    exact List.drop_left' (by simp [hek])
  have hts : ((ek ++ [tag] ++ ts8 ++ 1 :: (ch ++ rest)).drop 1089).take 8 = ts8 := by
    rw [hdrop]; exact List.take_left' hts8
  have hhcb : (ek ++ [tag] ++ ts8 ++ 1 :: (ch ++ rest)).getD 1097 0 = 1 := by
    rw [show ek ++ [tag] ++ ts8 ++ 1 :: (ch ++ rest) =
      (ek ++ [tag] ++ ts8) ++ 1 :: (ch ++ rest) by simp]
    rw [List.getD_append_right _ _ _ _ (by simp [hek, hts8])]
    simp [hek, hts8]
  have hchb : ((ek ++ [tag] ++ ts8 ++ 1 :: (ch ++ rest)).drop 1098).take 32 = ch := by
    rw [show ek ++ [tag] ++ ts8 ++ 1 :: (ch ++ rest) =
      (ek ++ [tag] ++ ts8 ++ [1]) ++ (ch ++ rest) by simp]
    rw [List.drop_left' (by simp [hek, hts8])]
    exact List.take_left' hch
  unfold Announcement.from_bytes
  rw [if_neg (by rw [hlen]; simp [KYBER_CIPHERTEXT_SIZE, VIEW_TAG_SIZE]; omega)]
  rw [htake, htag, hts, hhcb, hchb]
  rw [if_pos (show ((1 : Nat) == 1) = true from rfl)]
  rw [if_neg (by rw [hlen]; simp [KYBER_CIPHERTEXT_SIZE, VIEW_TAG_SIZE])]

/-! ## Claim C6: announcement binary round-trip -/

/-- C6 (amended).  Parsing a valid announcement's encoding succeeds and
preserves `ephemeral_key`, `view_tag`, `timestamp`, and `channel_id`;
the `id`, `block_number` and `tx_hash` fields are not serialized, so the
result carries `id = 0`, `block_number = none`, `tx_hash = none`. -/
theorem claim6_roundtrip_mod_unserialized (a : Announcement) (now : Nat)
    (hval : a.validate now = .ok ())
    (hts : a.timestamp < 2 ^ 64)
    (hch : ∀ c, a.channel_id = some c → c.length = 32) :
    Announcement.from_bytes a.to_bytes now =
      .ok { a with id := 0, block_number := none, tx_hash := none } := by
  have hek : a.ephemeral_key.length = KYBER_CIPHERTEXT_SIZE := by
    by_contra hne
    simp [Announcement.validate, hne] at hval
  rcases hach : a.channel_id with _ | c
  · have hbytes : a.to_bytes = a.ephemeral_key ++ [a.view_tag] ++ toLE64 a.timestamp ++
        (0 : Nat) :: ([] : Bytes) := by
      simp [Announcement.to_bytes, hach]
    rw [hbytes, from_bytes_structured_nochannel _ _ _ _ _ _ hek (toLE64_length _)
      (by omega), fromLE_toLE64 _ hts]
    have hv : Announcement.validate ⟨0, a.ephemeral_key, a.view_tag, a.timestamp,
        none, none, none⟩ now = .ok () := by
      rw [validate_only_key_and_timestamp 0 a.id a.view_tag a.view_tag a.timestamp
        a.ephemeral_key none a.channel_id none a.block_number none a.tx_hash now]
      exact hval
    rw [hv]
  · have hbytes : a.to_bytes = a.ephemeral_key ++ [a.view_tag] ++ toLE64 a.timestamp ++
        (1 : Nat) :: (c ++ ([] : Bytes)) := by
      simp [Announcement.to_bytes, hach]
    rw [hbytes, from_bytes_structured_channel _ _ _ _ _ _ hek (toLE64_length _)
      (hch c hach), fromLE_toLE64 _ hts]
    have hv : Announcement.validate ⟨0, a.ephemeral_key, a.view_tag, a.timestamp,
        some c, none, none⟩ now = .ok () := by
      rw [validate_only_key_and_timestamp 0 a.id a.view_tag a.view_tag a.timestamp
        a.ephemeral_key (some c) a.channel_id none a.block_number none a.tx_hash now]
      exact hval
    rw [hv]

/-- Counterexample for C6 as stated: the wire format does not carry
`block_number` (nor `tx_hash`), so round-tripping an announcement whose
`block_number` is `some 1` yields `none` there — the fields are not
preserved. -/
theorem claim6_counterexample :
    Announcement.from_bytes demoAnnWithBlock.to_bytes 0 =
      .ok { demoAnnWithBlock with block_number := none } ∧
    Announcement.from_bytes demoAnnWithBlock.to_bytes 0 ≠ .ok demoAnnWithBlock := by
  have hbytes : demoAnnWithBlock.to_bytes =
      List.replicate 1088 1 ++ [5] ++ toLE64 0 ++ (0 : Nat) :: ([] : Bytes) := rfl
  have hparse := from_bytes_structured_nochannel (List.replicate 1088 1) (toLE64 0)
    [] 5 0 0 (by simp) (toLE64_length 0) (by omega)
  have hv : Announcement.validate
      ⟨0, List.replicate 1088 1, 5, fromLE (toLE64 0), none, none, none⟩ 0 = .ok () := by
    rw [show fromLE (toLE64 0) = 0 from rfl]
    rw [Announcement.validate]
    rw [if_neg (by simp [KYBER_CIPHERTEXT_SIZE])]
    rw [if_neg (by rw [allZero_replicate_ne _ _ (by omega) (by omega)]; exact Bool.false_ne_true)]
    rfl
  rw [hbytes]
  rw [hparse, hv]
  refine ⟨by rfl, ?_⟩
  intro hcontra
  have := Except.ok.inj hcontra
  have hbn := congrArg Announcement.block_number this
  simp [demoAnnWithBlock] at hbn

/-- Witness for C6 (amended) at a concrete announcement with a channel
id. -/
theorem claim6_witness :
    Announcement.from_bytes
      (Announcement.to_bytes ⟨3, List.replicate 1088 1, 5, 7, some (List.replicate 32 2),
        some 4, some "0xdead".data⟩) 7 =
      .ok ⟨0, List.replicate 1088 1, 5, 7, some (List.replicate 32 2), none, none⟩ := by
  have h := claim6_roundtrip_mod_unserialized
    ⟨3, List.replicate 1088 1, 5, 7, some (List.replicate 32 2), some 4, some "0xdead".data⟩ 7
    (by rw [Announcement.validate]
        rw [if_neg (by simp [KYBER_CIPHERTEXT_SIZE])]
        rw [if_neg (by rw [allZero_replicate_ne _ _ (by omega) (by omega)]; exact Bool.false_ne_true)]
        rw [if_neg (by decide)])
    (by decide)
    (by intro c hc; injection hc with h; rw [← h]; simp)
  exact h

/-! ## Claim C5: `from_bytes` validates but accepts trailing bytes -/

/-- Parsing a buffer `v :: (spk ++ vpk) ++ rest` with 1184-byte keys:
any trailing `rest` is ignored and the meta-address decodes
positionally, subject to validation. -/
theorem meta_from_bytes_structured (v : Nat) (spk vpk rest : Bytes)
    (hs : spk.length = 1184) (hv : vpk.length = 1184) :
    MetaAddress.from_bytes (v :: (spk ++ vpk) ++ rest) =
      (match MetaAddress.validate ⟨v, spk, vpk⟩ with
       | .error e => .error e
       | .ok _ => .ok ⟨v, spk, vpk⟩) := by
  have hlen : (v :: (spk ++ vpk) ++ rest).length = 2369 + rest.length := by
    simp [hs, hv]; omega
  have hspk : ((v :: (spk ++ vpk) ++ rest).drop 1).take 1184 = spk := by
    rw [show v :: (spk ++ vpk) ++ rest = [v] ++ (spk ++ (vpk ++ rest)) by simp]
    rw [List.drop_left' (by rfl)]
    exact List.take_left' hs
  have hvpk : ((v :: (spk ++ vpk) ++ rest).drop 1185).take 1184 = vpk := by
    rw [show v :: (spk ++ vpk) ++ rest = ([v] ++ spk) ++ (vpk ++ rest) by simp]
    rw [List.drop_left' (by simp [hs])]
    exact List.take_left' hv
  have hver : (v :: (spk ++ vpk) ++ rest).getD 0 0 = v := rfl
  rw [MetaAddress.from_bytes]
  rw [if_neg (by rw [hlen]; omega)]
  rw [hspk, hvpk, hver]
  rw [KyberPublicKey.from_bytes, if_neg (by simp [hs, KYBER_PUBLIC_KEY_SIZE])]
  rw [KyberPublicKey.from_bytes, if_neg (by simp [hv, KYBER_PUBLIC_KEY_SIZE])]

/-- Parsing the demo meta-address's canonical encoding with a trailing
byte succeeds, ignoring the trailing byte. -/
theorem demoMeta_parse_trailing :
    MetaAddress.from_bytes (demoMeta.to_bytes ++ [7]) = .ok demoMeta := by
  have hm : demoMeta.to_bytes ++ [7] =
      (1 : Nat) :: (List.replicate 1184 1 ++ List.replicate 1184 2) ++ [7] := rfl
  rw [hm, meta_from_bytes_structured 1 _ _ _ (by simp) (by simp)]
  rw [MetaAddress.validate]
  rw [if_neg (by simp)]
  rw [if_neg (by rw [allZero_replicate_ne _ _ (by omega) (by omega)]; exact Bool.false_ne_true)]
  rw [if_neg (by rw [allZero_replicate_ne _ _ (by omega) (by omega)]; exact Bool.false_ne_true)]
  rfl

/-- Parsing the demo announcement's canonical encoding with a trailing
byte succeeds, ignoring the trailing byte. -/
theorem demoAnn_parse_trailing :
    Announcement.from_bytes (demoAnn.to_bytes ++ [9]) 0 = .ok demoAnn := by
  have ha : demoAnn.to_bytes ++ [9] =
      List.replicate 1088 1 ++ [5] ++ toLE64 0 ++ (0 : Nat) :: ([9] : Bytes) := rfl
  rw [ha, from_bytes_structured_nochannel (List.replicate 1088 1) (toLE64 0) [9] 5 0 0
    (by simp) (toLE64_length 0) (by omega)]
  rw [show fromLE (toLE64 0) = 0 from rfl]
  rw [Announcement.validate]
  rw [if_neg (by simp [KYBER_CIPHERTEXT_SIZE])]
  rw [if_neg (by rw [allZero_replicate_ne _ _ (by omega) (by omega)]; exact Bool.false_ne_true)]
  rw [if_neg (by decide)]
  rfl

/-- Counterexample for C5 as stated: appending a trailing byte to the
canonical 2369-byte meta-address encoding (respectively to the
1098-byte announcement encoding) is silently accepted — `from_bytes`
checks only a lower length bound, so it does not return an error on
inputs with extra trailing bytes. -/
theorem claim5_counterexample :
    (demoMeta.to_bytes ++ [7]).length = 2370 ∧
    MetaAddress.from_bytes (demoMeta.to_bytes ++ [7]) = .ok demoMeta ∧
    (demoAnn.to_bytes ++ [9]).length = 1099 ∧
    Announcement.from_bytes (demoAnn.to_bytes ++ [9]) 0 = .ok demoAnn := by
  refine ⟨?_, demoMeta_parse_trailing, ?_, demoAnn_parse_trailing⟩
  · rw [show demoMeta.to_bytes ++ [7] =
      (1 : Nat) :: (List.replicate 1184 1 ++ List.replicate 1184 2) ++ [7] from rfl]
    simp
  · rw [show demoAnn.to_bytes ++ [9] =
      List.replicate 1088 1 ++ [5] ++ toLE64 0 ++ (0 : Nat) :: ([9] : Bytes) from rfl]
    simp [toLE64]

/-- C5 (amended).  `MetaAddress::from_bytes` and
`Announcement::from_bytes` validate before returning — every value they
return satisfies the entity's `validate` — and they reject inputs
shorter than the canonical encoding, but extra trailing bytes beyond the
canonical encoding are accepted silently: parsing `b ++ extra` returns
the same value as parsing `b` whenever parsing `b` succeeds. -/
theorem claim5_from_bytes_validates_accepts_trailing :
    (∀ b m, MetaAddress.from_bytes b = .ok m → m.validate = .ok ()) ∧
    (∀ b now a, Announcement.from_bytes b now = .ok a → a.validate now = .ok ()) ∧
    (∀ b extra m, MetaAddress.from_bytes b = .ok m →
      MetaAddress.from_bytes (b ++ extra) = .ok m) ∧
    (∀ b now extra a, Announcement.from_bytes b now = .ok a →
      Announcement.from_bytes (b ++ extra) now = .ok a) := by
  refine ⟨?_, ?_, ?_, ?_⟩
  · intro b m h
    rw [MetaAddress.from_bytes] at h
    split at h
    · simp at h
    split at h
    · simp at h
    split at h
    · simp at h
    split at h
    · simp at h
    · rename_i hval
      cases Except.ok.inj h
      exact hval
  · intro b now a h
    unfold Announcement.from_bytes at h
    split at h
    · simp at h
    split at h
    · simp at h
    split at h
    · simp at h
    · rename_i hval
      cases Except.ok.inj h
      exact hval
  · intro b extra m h
    by_cases hlen : b.length < 1 + 1184 + 1184
    · rw [MetaAddress.from_bytes, if_pos hlen] at h; simp at h
    · rw [MetaAddress.from_bytes, if_neg hlen] at h
      rw [MetaAddress.from_bytes, if_neg (by simp; omega)]
      have h1 : ((b ++ extra).drop 1).take 1184 = (b.drop 1).take 1184 := by
        rw [List.drop_append_of_le_length (by omega)]
        exact List.take_append_of_le_length (by simp; omega)
      have h2 : ((b ++ extra).drop 1185).take 1184 = (b.drop 1185).take 1184 := by
        rw [List.drop_append_of_le_length (by omega)]
        exact List.take_append_of_le_length (by simp; omega)
      have h3 : (b ++ extra).getD 0 0 = b.getD 0 0 := List.getD_append _ _ _ _ (by omega)
      rw [h1, h2, h3]
      exact h
  · intro b now extra a h
    by_cases hlen : b.length < KYBER_CIPHERTEXT_SIZE + VIEW_TAG_SIZE + 8 + 1
    · unfold Announcement.from_bytes at h
      rw [if_pos hlen] at h; simp at h
    · have hblen : 1098 ≤ b.length := by
        simp [KYBER_CIPHERTEXT_SIZE, VIEW_TAG_SIZE] at hlen; omega
      unfold Announcement.from_bytes at h ⊢
      rw [if_neg hlen] at h
      rw [if_neg (by simp [KYBER_CIPHERTEXT_SIZE, VIEW_TAG_SIZE]; omega)]
      have h1 : (b ++ extra).take 1088 = b.take 1088 :=
        List.take_append_of_le_length (by omega)
      have h2 : (b ++ extra).getD 1088 0 = b.getD 1088 0 :=
        List.getD_append _ _ _ _ (by omega)
      have h3 : ((b ++ extra).drop 1089).take 8 = (b.drop 1089).take 8 := by
        rw [List.drop_append_of_le_length (by omega)]
        exact List.take_append_of_le_length (by simp; omega)
      have h4 : (b ++ extra).getD 1097 0 = b.getD 1097 0 :=
        List.getD_append _ _ _ _ (by omega)
      rw [h1, h2, h3, h4]
      by_cases hhc : b.getD 1097 0 = 1
      · rw [hhc] at h ⊢
        rw [if_pos (show ((1 : Nat) == 1) = true from rfl)] at h ⊢
        by_cases hlc : b.length < KYBER_CIPHERTEXT_SIZE + VIEW_TAG_SIZE + 8 + 1 + 32
        · rw [if_pos hlc] at h
          simp at h
        · have hblc : 1130 ≤ b.length := by
            simp [KYBER_CIPHERTEXT_SIZE, VIEW_TAG_SIZE] at hlc; omega
          rw [if_neg hlc] at h
          rw [if_neg (by simp [KYBER_CIPHERTEXT_SIZE, VIEW_TAG_SIZE]; omega)]
          have h5 : ((b ++ extra).drop 1098).take 32 = (b.drop 1098).take 32 := by
            rw [List.drop_append_of_le_length (by omega)]
            exact List.take_append_of_le_length (by simp; omega)
          rw [h5]
          exact h
      · have hc' : (b.getD 1097 0 == 1) = false := by
          simp only [beq_eq_false_iff_ne]
          exact hhc
        rw [hc'] at h ⊢
        rw [if_neg (by simp)] at h ⊢
        exact h

/-- Witness for C5 (amended): the demo meta-address parsed from bytes
with one trailing byte validates, and a further trailing byte is also
accepted with the same result. -/
theorem claim5_witness :
    demoMeta.validate = .ok () ∧
    MetaAddress.from_bytes ((demoMeta.to_bytes ++ [7]) ++ [8]) = .ok demoMeta :=
  ⟨claim5_from_bytes_validates_accepts_trailing.1 _ _ demoMeta_parse_trailing,
   claim5_from_bytes_validates_accepts_trailing.2.2.1 _ [8] _ demoMeta_parse_trailing⟩

/-! ## Claim C10: has_channel bytes other than 1 are treated as 0 -/

/-- C10.  When the has_channel byte (offset 1097) of a parsed buffer is
any value other than 1, `Announcement.from_bytes` does not reject the
input for that reason: it parses exactly as if the byte were 0, and any
successfully parsed announcement carries `channel_id = none`. -/
theorem claim10_has_channel_byte_lenient (ek ts8 rest : Bytes) (tag v now : Nat)
    (hek : ek.length = 1088) (hts8 : ts8.length = 8) (hv : v ≠ 1) :
    Announcement.from_bytes (ek ++ [tag] ++ ts8 ++ v :: rest) now =
      Announcement.from_bytes (ek ++ [tag] ++ ts8 ++ (0 : Nat) :: rest) now ∧
    ∀ a, Announcement.from_bytes (ek ++ [tag] ++ ts8 ++ v :: rest) now = .ok a →
      a.channel_id = none := by
  have hv' := from_bytes_structured_nochannel ek ts8 rest tag v now hek hts8 hv
  have h0 := from_bytes_structured_nochannel ek ts8 rest tag 0 now hek hts8 (by omega)
  constructor
  · rw [hv', h0]
  · intro a ha
    rw [hv'] at ha
    split at ha
    · simp at ha
    · cases Except.ok.inj ha
      rfl

/-- Witness for C10 at a concrete buffer whose has_channel byte is 2. -/
theorem claim10_witness :
    Announcement.from_bytes
      (List.replicate 1088 1 ++ [5] ++ List.replicate 8 0 ++ (2 : Nat) :: []) 0 =
    Announcement.from_bytes
      (List.replicate 1088 1 ++ [5] ++ List.replicate 8 0 ++ (0 : Nat) :: []) 0 :=
  (claim10_has_channel_byte_lenient (List.replicate 1088 1) (List.replicate 8 0) []
    5 2 0 (by simp) (by simp) (by omega)).1

/-! ## Claim C4: duplicate tx_hash rejection -/

/-- A successful `publish` carrying a tx hash records the normalized
hash in the tx-hash index of the resulting state. -/
theorem publish_tx_index_some (st : MemoryRegistry) (a : Announcement)
    (now id : Nat) (h : List Char) (ha : a.tx_hash = some h)
    (hok : (st.publish a now).1 = .ok id) :
    ((st.publish a now).2.tx_hash_index (normalize_tx_hash h)).isSome = true := by
  rcases hval : a.validate now with e | u
  · simp only [MemoryRegistry.publish, hval] at hok
    exact Except.noConfusion hok
  · by_cases hempty : (normalize_tx_hash h).isEmpty = true
    · simp only [MemoryRegistry.publish, hval, ha, hempty, if_true, reduceIte] at hok
      exact Except.noConfusion hok
    · by_cases hsome : (st.tx_hash_index (normalize_tx_hash h)).isSome = true
      · simp only [MemoryRegistry.publish, hval, ha, hempty, hsome, if_true, if_false,
          Bool.false_eq_true, reduceIte] at hok
        exact Except.noConfusion hok
      · simp only [MemoryRegistry.publish, hval, ha, hempty, hsome, if_true, if_false,
          Bool.false_eq_true, reduceIte] at hok ⊢
        simp

/-- The tx-hash index only grows along registry operations. -/
theorem step_tx_monotone (st : MemoryRegistry) (op : RegOp) (n : List Char)
    (h : (st.tx_hash_index n).isSome = true) :
    ((regStep st op).tx_hash_index n).isSome = true := by
  rcases op with ⟨a, now⟩
  show ((st.publish a now).2.tx_hash_index n).isSome = true
  rcases hval : a.validate now with e | u
  · simp only [MemoryRegistry.publish, hval]
    exact h
  · rcases hta : a.tx_hash with _ | hash
    · simp only [MemoryRegistry.publish, hval, hta]
      exact h
    · by_cases hempty : (normalize_tx_hash hash).isEmpty = true
      · simp only [MemoryRegistry.publish, hval, hta, hempty, if_true, reduceIte]
        exact h
      · by_cases hsome : (st.tx_hash_index (normalize_tx_hash hash)).isSome = true
        · simp only [MemoryRegistry.publish, hval, hta, hempty, hsome, if_true, if_false,
            Bool.false_eq_true, reduceIte]
          exact h
        · simp only [MemoryRegistry.publish, hval, hta, hempty, hsome, if_true, if_false,
            Bool.false_eq_true, reduceIte]
          split
          · simp
          · exact h

/-- The tx-hash index only grows along sequences of operations. -/
theorem regRun_tx_monotone (ops : List RegOp) :
    ∀ st n, (st.tx_hash_index n).isSome = true →
      ((regRun st ops).tx_hash_index n).isSome = true := by
  induction ops with
  | nil => intro st n h; exact h
  | cons op rest ih =>
    intro st n h
    exact ih (regStep st op) n (step_tx_monotone st op n h)

/-- A `publish` whose announcement carries a tx hash already present in
the index (after normalization) never succeeds. -/
theorem publish_tx_dup_fails (st : MemoryRegistry) (a : Announcement)
    (now : Nat) (h : List Char) (ha : a.tx_hash = some h)
    (hsome : (st.tx_hash_index (normalize_tx_hash h)).isSome = true) :
    ((st.publish a now).1).isOk = false := by
  rcases hval : a.validate now with e | u
  · simp only [MemoryRegistry.publish, hval]
    rfl
  · by_cases hempty : (normalize_tx_hash h).isEmpty = true
    · simp only [MemoryRegistry.publish, hval, ha, hempty, if_true, reduceIte]
      rfl
    · simp only [MemoryRegistry.publish, hval, ha, hempty, hsome, if_true, if_false,
        Bool.false_eq_true, reduceIte]
      rfl

/-- C4 (amended).  Publishing `demoAnnTx1` with tx hash `"0xabc"` into a
fresh registry succeeds with id 1; a subsequent publish of `demoAnnTx2`
with tx hash `"0xABC"` (identical after trimming and lowercasing) fails
— with `InvalidAnnouncement("announcement with this transaction hash
already exists")`, not with the unused `DuplicateAnnouncement` variant —
and `count()` stays 1.  In general, once a publish with tx hash `h1`
succeeds, any later publish (after any further operations) whose tx hash
normalizes to the same string fails. -/
theorem claim4_duplicate_tx_hash :
    (MemoryRegistry.new.publish demoAnnTx1 0).1 = .ok 1 ∧
    ((MemoryRegistry.new.publish demoAnnTx1 0).2.publish demoAnnTx2 0).1 =
      .error (.InvalidAnnouncement
        "announcement with this transaction hash already exists") ∧
    ((MemoryRegistry.new.publish demoAnnTx1 0).2.publish demoAnnTx2 0).2.count = 1 ∧
    (∀ (st : MemoryRegistry) (a1 a2 : Announcement) (h1 h2 : List Char)
      (now1 now2 : Nat) (mid : List RegOp) (id1 : Nat),
      a1.tx_hash = some h1 → a2.tx_hash = some h2 →
      normalize_tx_hash h1 = normalize_tx_hash h2 →
      (st.publish a1 now1).1 = .ok id1 →
      (((regRun (st.publish a1 now1).2 mid).publish a2 now2).1).isOk = false) := by
  refine ⟨rfl, rfl, rfl, ?_⟩
  intro st a1 a2 h1 h2 now1 now2 mid id1 ha1 ha2 hnorm hok
  apply publish_tx_dup_fails _ _ _ _ ha2
  rw [← hnorm]
  exact regRun_tx_monotone mid _ _ (publish_tx_index_some st a1 now1 id1 h1 ha1 hok)

/-- Witness for C4 at the demo scenario, applying the general
exclusion with no intervening operations. -/
theorem claim4_witness :
    (((MemoryRegistry.new.publish demoAnnTx1 0).2.publish demoAnnTx2 0).1).isOk =
      false :=
  claim4_duplicate_tx_hash.2.2.2 MemoryRegistry.new demoAnnTx1 demoAnnTx2
    "0xabc".data "0xABC".data 0 0 [] 1 rfl rfl (by decide) rfl

/-- Counterexample for C4 as stated: the duplicate publish fails, but
with `InvalidAnnouncement`, not with the `DuplicateAnnouncement` error
the claim names — that variant is reserved for duplicate ids and is
never produced by `publish`. -/
theorem claim4_counterexample :
    ((MemoryRegistry.new.publish demoAnnTx1 0).2.publish demoAnnTx2 0).1 =
      .error (.InvalidAnnouncement
        "announcement with this transaction hash already exists") ∧
    SpecterError.isDuplicateAnnouncement
      (.InvalidAnnouncement "announcement with this transaction hash already exists") =
      false := ⟨rfl, rfl⟩

/-! ## Claim C8: store / view-tag-index agreement -/

/-- With unique keys, association-list membership determines lookup. -/
theorem lookup_eq_some_of_mem (l : List (Nat × Announcement)) (id : Nat)
    (a : Announcement) (hnd : (l.map Prod.fst).Nodup) (hmem : (id, a) ∈ l) :
    l.lookup id = some a := by
  induction l with
  | nil => simp at hmem
  | cons p tl ih =>
    rcases p with ⟨k, b⟩
    simp only [List.map_cons, List.nodup_cons] at hnd
    rcases List.mem_cons.mp hmem with heq | hmem'
    · obtain ⟨h1, h2⟩ := Prod.mk.inj heq
      subst h1; subst h2
      simp [List.lookup]
    · have hne : id ≠ k := by
        intro hcontra
        subst hcontra
        exact hnd.1 (List.mem_map.mpr ⟨(id, a), hmem', rfl⟩)
      have hbeq : (id == k) = false := beq_eq_false_iff_ne.mpr hne
      simp only [List.lookup, hbeq]
      exact ih hnd.2 hmem'

/-- State after one error-returning `publish` is unchanged. -/
theorem publish_error_state (st : MemoryRegistry) (a : Announcement) (now : Nat)
    (e : SpecterError) (h : (st.publish a now).1 = .error e) :
    (st.publish a now).2 = st := by
  rcases hval : a.validate now with e' | u
  · simp only [MemoryRegistry.publish, hval]
  · cases hd : (match a.tx_hash with
      | none => none
      | some hash =>
        if (normalize_tx_hash hash).isEmpty then
          some (SpecterError.InvalidAnnouncement "tx_hash cannot be empty")
        else if (st.tx_hash_index (normalize_tx_hash hash)).isSome then
          some (SpecterError.InvalidAnnouncement
            "announcement with this transaction hash already exists")
        else
          none) with
    | some e'' => simp only [MemoryRegistry.publish, hval, hd]
    | none =>
      simp only [MemoryRegistry.publish, hval, hd] at h
      exact Except.noConfusion h

/-- Characterization of a successful `publish`: the returned id is the
old `next_id` and the resulting state is the fully updated one. -/
theorem publish_ok_state (st : MemoryRegistry) (a : Announcement) (now id : Nat)
    (h : (st.publish a now).1 = .ok id) :
    id = st.next_id ∧
    (st.publish a now).2.announcements =
      st.announcements ++ [(st.next_id, { a with id := st.next_id })] ∧
    (∀ tag, (st.publish a now).2.view_tag_index tag =
      if tag = a.view_tag then st.view_tag_index tag ++ [st.next_id]
      else st.view_tag_index tag) ∧
    (st.publish a now).2.next_id = st.next_id + 1 := by
  rcases hval : a.validate now with e' | u
  · simp only [MemoryRegistry.publish, hval] at h
    exact Except.noConfusion h
  · cases hd : (match a.tx_hash with
      | none => none
      | some hash =>
        if (normalize_tx_hash hash).isEmpty then
          some (SpecterError.InvalidAnnouncement "tx_hash cannot be empty")
        else if (st.tx_hash_index (normalize_tx_hash hash)).isSome then
          some (SpecterError.InvalidAnnouncement
            "announcement with this transaction hash already exists")
        else
          none) with
    | some e'' =>
      simp only [MemoryRegistry.publish, hval, hd] at h
      exact Except.noConfusion h
    | none =>
      simp only [MemoryRegistry.publish, hval, hd] at h
      cases Except.ok.inj h
      refine ⟨rfl, ?_, ?_, ?_⟩
      · simp only [MemoryRegistry.publish, hval, hd]
      · intro tag
        simp only [MemoryRegistry.publish, hval, hd]
      · simp only [MemoryRegistry.publish, hval, hd]

/-- `publish` preserves the registry well-formedness invariant `RegInv`
on both its success and its error paths. -/
theorem publish_inv (st : MemoryRegistry) (a : Announcement) (now : Nat)
    (h : RegInv st) : RegInv (st.publish a now).2 := by
  obtain ⟨hnd, hlt, hagree⟩ := h
  rcases hres : (st.publish a now).1 with e | id
  · rw [publish_error_state st a now e hres]
    exact ⟨hnd, hlt, hagree⟩
  · obtain ⟨hid, hanns, hidx, hnext⟩ := publish_ok_state st a now id hres
    refine ⟨?_, ?_, ?_⟩
    · rw [hanns]
      simp only [List.map_append, List.map_cons, List.map_nil]
      rw [List.nodup_append]
      refine ⟨hnd, List.nodup_singleton _, ?_⟩
      intro x hx hx'
      simp only [List.mem_singleton] at hx'
      subst hx'
      obtain ⟨p, hp, hpx⟩ := List.mem_map.mp hx
      exact absurd (hpx ▸ hlt p hp) (lt_irrefl _)
    · intro p hp
      rw [hanns] at hp
      rw [hnext]
      rcases List.mem_append.mp hp with hp' | hp'
      · exact Nat.lt_succ_of_lt (hlt p hp')
      · simp only [List.mem_singleton] at hp'
        subst hp'
        exact Nat.lt_succ_self _
    · intro tag i
      rw [hanns, hidx tag]
      by_cases htag : tag = a.view_tag
      · subst htag
        rw [if_pos rfl]
        constructor
        · intro hi
          rcases List.mem_append.mp hi with hi' | hi'
          · obtain ⟨b, hb, hbtag⟩ := (hagree _ i).mp hi'
            exact ⟨b, List.mem_append_left _ hb, hbtag⟩
          · simp only [List.mem_singleton] at hi'
            subst hi'
            exact ⟨{ a with id := st.next_id },
              List.mem_append_right _ (List.mem_singleton.mpr rfl), rfl⟩
        · rintro ⟨b, hb, hbtag⟩
          rcases List.mem_append.mp hb with hb' | hb'
          · exact List.mem_append_left _ ((hagree _ i).mpr ⟨b, hb', hbtag⟩)
          · simp only [List.mem_singleton] at hb'
            obtain ⟨h1, _⟩ := Prod.mk.inj hb'
            subst h1
            exact List.mem_append_right _ (List.mem_singleton.mpr rfl)
      · rw [if_neg htag]
        constructor
        · intro hi
          obtain ⟨b, hb, hbtag⟩ := (hagree _ i).mp hi
          exact ⟨b, List.mem_append_left _ hb, hbtag⟩
        · rintro ⟨b, hb, hbtag⟩
          rcases List.mem_append.mp hb with hb' | hb'
          · exact (hagree _ i).mpr ⟨b, hb', hbtag⟩
          · simp only [List.mem_singleton] at hb'
            obtain ⟨_, h2⟩ := Prod.mk.inj hb'
            subst h2
            exact absurd hbtag (fun hh => htag hh.symm)

/-- The fresh registry satisfies the invariant. -/
theorem new_reg_inv : RegInv MemoryRegistry.new := by
  refine ⟨?_, ?_, ?_⟩
  · simp [MemoryRegistry.new]
  · intro p hp
    simp [MemoryRegistry.new] at hp
  · intro tag id
    simp [MemoryRegistry.new]

/-- The invariant is preserved along any operation sequence. -/
theorem regRun_inv (ops : List RegOp) :
    ∀ st, RegInv st → RegInv (regRun st ops) := by
  induction ops with
  | nil => intro st h; exact h
  | cons op rest ih =>
    intro st h
    rcases op with ⟨a, now⟩
    exact ih _ (publish_inv st a now h)

/-- Splitting a run at an operation. -/
theorem regRun_append (l1 l2 : List RegOp) :
    ∀ st, regRun st (l1 ++ l2) = regRun (regRun st l1) l2 := by
  induction l1 with
  | nil => intro st; rfl
  | cons op rest ih => intro st; exact ih (regStep st op)

/-- Unfolding `successCount` over a successful publish. -/
theorem successCount_cons_ok (st : MemoryRegistry) (a : Announcement)
    (now : Nat) (rest : List RegOp) (id : Nat)
    (h : (st.publish a now).1 = .ok id) :
    successCount st (RegOp.publish a now :: rest) =
      successCount (st.publish a now).2 rest + 1 := by
  have hm : successCount st (RegOp.publish a now :: rest) =
      (match st.publish a now with
       | (Except.ok _, st') => successCount st' rest + 1
       | (Except.error _, st') => successCount st' rest) := rfl
  rcases hp : st.publish a now with ⟨r, st'⟩
  rw [hp] at h
  simp only at h
  subst h
  rw [hm, hp]

/-- Unfolding `successCount` over a failed publish. -/
theorem successCount_cons_error (st : MemoryRegistry) (a : Announcement)
    (now : Nat) (rest : List RegOp) (e : SpecterError)
    (h : (st.publish a now).1 = .error e) :
    successCount st (RegOp.publish a now :: rest) =
      successCount (st.publish a now).2 rest := by
  have hm : successCount st (RegOp.publish a now :: rest) =
      (match st.publish a now with
       | (Except.ok _, st') => successCount st' rest + 1
       | (Except.error _, st') => successCount st' rest) := rfl
  rcases hp : st.publish a now with ⟨r, st'⟩
  rw [hp] at h
  simp only at h
  subst h
  rw [hm, hp]

/-- The announcement count after a run is the initial count plus the
number of successful publishes. -/
theorem regRun_count (ops : List RegOp) :
    ∀ st, (regRun st ops).count = st.count + successCount st ops := by
  induction ops with
  | nil => intro st; simp [regRun, successCount]
  | cons op rest ih =>
    intro st
    rcases op with ⟨a, now⟩
    show (regRun (st.publish a now).2 rest).count = _
    rw [ih]
    rcases hres : (st.publish a now).1 with e | id
    · rw [successCount_cons_error st a now rest e hres,
        publish_error_state st a now e hres]
    · have hcount : (st.publish a now).2.count = st.count + 1 := by
        obtain ⟨_, hanns, _, _⟩ := publish_ok_state st a now id hres
        unfold MemoryRegistry.count
        rw [hanns]
        simp
      rw [successCount_cons_ok st a now rest id hres, hcount]
      omega

/-- Stored entries persist across later operations. -/
theorem regRun_mem_preserved (ops : List RegOp) :
    ∀ st p, p ∈ st.announcements → p ∈ (regRun st ops).announcements := by
  induction ops with
  | nil => intro st p hp; exact hp
  | cons op rest ih =>
    intro st p hp
    rcases op with ⟨a, now⟩
    apply ih
    show p ∈ (st.publish a now).2.announcements
    rcases hres : (st.publish a now).1 with e | id
    · rw [publish_error_state st a now e hres]; exact hp
    · obtain ⟨_, hanns, _, _⟩ := publish_ok_state st a now id hres
      rw [hanns]
      exact List.mem_append_left _ hp

/-- Under the invariant, every stored announcement is returned by
`get_by_view_tag` of its tag. -/
theorem mem_get_by_view_tag (st : MemoryRegistry) (hinv : RegInv st)
    (id : Nat) (a : Announcement) (hmem : (id, a) ∈ st.announcements) :
    a ∈ st.get_by_view_tag a.view_tag := by
  obtain ⟨hnd, _, hagree⟩ := hinv
  have hid : id ∈ st.view_tag_index a.view_tag := (hagree _ id).mpr ⟨a, hmem, rfl⟩
  have hlk := lookup_eq_some_of_mem _ id a hnd hmem
  unfold MemoryRegistry.get_by_view_tag
  exact List.mem_filterMap.mpr ⟨id, hid, hlk⟩

/-- C8.  Starting from a fresh registry, after any sequence of
operations: the view-tag index agrees with the store (each bucket holds
exactly the ids of stored announcements with that tag), `count()` equals
the number of successful publishes, and every successfully published
announcement is returned by `get_by_view_tag` of its view tag. -/
theorem claim8_registry_agreement (ops : List RegOp) :
    indexAgrees (regRun MemoryRegistry.new ops) ∧
    (regRun MemoryRegistry.new ops).count = successCount MemoryRegistry.new ops ∧
    (∀ (pre suf : List RegOp) (a : Announcement) (now id : Nat),
      ops = pre ++ RegOp.publish a now :: suf →
      ((regRun MemoryRegistry.new pre).publish a now).1 = .ok id →
      { a with id := id } ∈
        (regRun MemoryRegistry.new ops).get_by_view_tag a.view_tag) := by
  refine ⟨(regRun_inv ops MemoryRegistry.new new_reg_inv).2.2, ?_, ?_⟩
  · rw [regRun_count ops MemoryRegistry.new]
    simp [MemoryRegistry.count, MemoryRegistry.new]
  · intro pre suf a now id hops hok
    subst hops
    rw [regRun_append]
    have hstep : regRun (regRun MemoryRegistry.new pre) (RegOp.publish a now :: suf) =
        regRun ((regRun MemoryRegistry.new pre).publish a now).2 suf := rfl
    rw [hstep]
    obtain ⟨hid, hanns, _, _⟩ :=
      publish_ok_state (regRun MemoryRegistry.new pre) a now id hok
    have hmem : ((regRun MemoryRegistry.new pre).next_id,
        { a with id := (regRun MemoryRegistry.new pre).next_id }) ∈
        ((regRun MemoryRegistry.new pre).publish a now).2.announcements := by
      rw [hanns]
      exact List.mem_append_right _ (List.mem_singleton.mpr rfl)
    have hmem2 := regRun_mem_preserved suf _ _ hmem
    have hinv : RegInv (regRun ((regRun MemoryRegistry.new pre).publish a now).2 suf) := by
      apply regRun_inv
      apply publish_inv
      exact regRun_inv pre MemoryRegistry.new new_reg_inv
    have hfin := mem_get_by_view_tag _ hinv _ _ hmem2
    rw [hid]
    simpa using hfin

/-- Witness for C8: a two-publish sequence in which the second publish's
announcement is observable under its view tag. -/
theorem claim8_witness :
    { demoAnn with id := 1 } ∈ (regRun MemoryRegistry.new
      [RegOp.publish demoAnn 0]).get_by_view_tag demoAnn.view_tag :=
  (claim8_registry_agreement [RegOp.publish demoAnn 0]).2.2
    [] [] demoAnn 0 1 rfl (by rfl)

/-! ## Claim C1: created payments are discovered by the scan -/

/-- C1.  For a valid meta-address whose viewing key pair is KEM-correct,
if `create_stealth_payment` returns a payment, then scanning that
payment's announcement with the matching viewing secret key and the
spending keys returns `Discovered`, and the discovered keys' address
equals the payment's stealth address.  (The announcement must not be
all-zero — true of every real Kyber ciphertext — and the scanning clock
must not lag the creation clock by more than the 3600-second validation
window.) -/
theorem claim1_create_then_scan_discovers
    (P : CryptoPrims) (K : KEM) (fuel : Nat) (meta : MetaAddress)
    (viewing_sk spending_sk : Bytes) (r now_send now_scan : Nat)
    (payment : StealthPayment)
    (hkem : KEMCorrect K meta.viewing_pk viewing_sk)
    (hsk : viewing_sk.length = KYBER_SECRET_KEY_SIZE)
    (hcreate : create_stealth_payment P K fuel meta r now_send = some (.ok payment))
    (hnz : allZero payment.announcement.ephemeral_key = false)
    (hts : now_send ≤ now_scan + 3600) :
    ∃ keys, scan_announcement P K fuel payment.announcement viewing_sk
        meta.spending_pk spending_sk now_scan = some (.Discovered keys) ∧
      keys.address = payment.stealth_address := by
  rcases hval : meta.validate with e | u
  · simp only [create_stealth_payment, hval] at hcreate
    simp at hcreate
  by_cases hpklen : meta.viewing_pk.length = KYBER_PUBLIC_KEY_SIZE
  case neg =>
    have henc' : encapsulate K meta.viewing_pk r =
        .error (.EncapsulationError "Invalid public key") := by
      unfold encapsulate
      rw [if_pos hpklen]
    simp only [create_stealth_payment, hval, henc'] at hcreate
    simp at hcreate
  case pos =>
  have hct0 := K.encaps_ct_length meta.viewing_pk r
  have hdecap := hkem r
  rcases hE : K.encaps meta.viewing_pk r with ⟨ct, ss⟩
  rw [hE] at hct0 hdecap
  simp only at hct0 hdecap
  have henc : encapsulate K meta.viewing_pk r = .ok (ct, ss) := by
    unfold encapsulate
    rw [if_neg (by simp [hpklen]), hE]
    simp only [KyberCiphertext.from_bytes, hct0, KYBER_CIPHERTEXT_SIZE]
    rw [if_neg (by simp)]
  rcases hda : derive_stealth_address P fuel meta.spending_pk ss with _ | res
  · simp only [create_stealth_payment, hval, henc, hda] at hcreate
    simp at hcreate
  rcases res with e | addr
  · simp only [create_stealth_payment, hval, henc, hda] at hcreate
    simp at hcreate
  simp only [create_stealth_payment, hval, henc, hda] at hcreate
  have hpay := (Except.ok.inj (Option.some.inj hcreate))
  subst hpay
  simp only at hnz ⊢
  unfold derive_stealth_address at hda
  rw [Option.map_eq_some'] at hda
  obtain ⟨seed, hseed, hA⟩ := hda
  have hvalid : P.validScalar seed = true := by
    by_contra hc
    unfold derive_eth_address_from_seed at hA
    rw [if_neg (by simpa using hc)] at hA
    exact Except.noConfusion hA
  refine ⟨⟨P.encodedPoint seed, seed, addr⟩, ?_, rfl⟩
  have h1 : Announcement.validate
      ⟨0, ct, compute_view_tag P ss, now_send, none, none, none⟩ now_scan = .ok () := by
    unfold Announcement.validate
    rw [if_neg (by simp [hct0, KYBER_CIPHERTEXT_SIZE])]
    rw [if_neg (by simpa using hnz)]
    rw [if_neg (by simp only; omega)]
  have h2 : KyberCiphertext.from_bytes ct = .ok ct := by
    unfold KyberCiphertext.from_bytes
    rw [if_neg (by simp [hct0, KYBER_CIPHERTEXT_SIZE])]
  have h3 : KyberSecretKey.from_bytes viewing_sk = .ok viewing_sk := by
    unfold KyberSecretKey.from_bytes
    rw [if_neg (by simp [hsk])]
  have h4 : decapsulate K ct viewing_sk = .ok ss := by
    unfold decapsulate
    rw [if_neg (by simp [hct0, KYBER_CIPHERTEXT_SIZE]),
      if_neg (by simp [hsk, KYBER_SECRET_KEY_SIZE]), hdecap]
  have h5 : derive_stealth_keys P fuel meta.spending_pk spending_sk ss =
      some (.ok ⟨P.encodedPoint seed, seed, addr⟩) := by
    unfold derive_stealth_keys
    rw [hseed, Option.map_some', hA, hvalid]
    simp
  simp only [scan_announcement]
  dsimp only [Announcement.new]
  simp only [h1, h2, h3, h4, h5]
  rw [if_neg (fun hh => hh rfl)]

/-- Witness for C1 at the demo primitives, demo KEM and a concrete
meta-address. -/
theorem claim1_witness :
    ∃ keys, scan_announcement demoPrims demoKEM 1
        ⟨0, List.replicate 1088 1, 1, 0, none, none, none⟩
        (List.replicate 2400 3) (List.replicate 1184 1) (List.replicate 2400 4) 0 =
      some (.Discovered keys) ∧
      keys.address = List.replicate 20 1 := by
  have h := claim1_create_then_scan_discovers demoPrims demoKEM 1
    ⟨1, List.replicate 1184 1, List.replicate 1184 2⟩
    (List.replicate 2400 3) (List.replicate 2400 4) 0 0 0
    ⟨List.replicate 20 1, ⟨0, List.replicate 1088 1, 1, 0, none, none, none⟩,
      PaymentMetadata.default⟩
    (fun _ => rfl) (by simp [KYBER_SECRET_KEY_SIZE]) (by rfl) (by decide) (by omega)
  exact h

end Specter
